import Mathlib

/-!
Verification development for the `sequelize-seeder-factory-json` repository.

The JavaScript sources embedded here:
* `lib/data-processor.js` — `DataProcessor.processGeneric` (record normalization);
* `seeder-factory.js` (shipped inside the package README bundle) —
  `SeederFactory._loadDataFile`, `processData`, `insertData`,
  `bulkInsertInBatches`, `removeData`;
* `seeder-config.js` — only its resolved-configuration record shape is needed
  (`EntityConfig`); the regex-based auto-discovery itself is not under test.

Modelling conventions:
* JavaScript values reachable in this code are modelled by `JSValue`.  JS
  strings are carried as `List Char` so that `trim` is the literal
  drop-whitespace-at-both-ends operation.  Values whose `typeof` is none of
  `string`/`number`/`boolean`/`object`/`undefined` and that are neither
  `Date`s nor arrays (JS functions, bigints, …) are carried as
  `JSValue.other r` where `r` is the result of JS `String(value)`.
* A JS object is a finite ordered field list, `Rec`; `Object.entries`
  iterates it in insertion order, and a JS object never holds the same key
  twice, so plain list traversal is a faithful model of field iteration.
* File-system/JSON-parse outcomes are modelled by `FileState`; the generic
  JS `Error` values thrown by the code are classified by `SeedError`
  following the message classes in the source
  (`"Data file not found: …"` ↦ `dataFileNotFound`,
  `"Invalid JSON in data file: …"` ↦ `invalidJson`,
  `"Data must be an array. Got: …"` ↦ `invalidDataShape`,
  `"Invalid item at index …: must be an object"` ↦ `invalidRecord`,
  `"Batch size must be greater than 0"` ↦ `invalidConfig`,
  a `TypeError` raised by a property read on `null`/`undefined` ↦
  `typeError`, a rejected `queryInterface` promise ↦ `databaseError`).
* The external database interface is modelled by success predicates on the
  issued calls: `db : String → List JSValue → Bool` for
  `bulkInsert(table, batch)` and `dbd : DBCall → Bool` for the `bulkDelete`
  calls of `removeData`; operations return the trace of issued calls
  (`DBCall`) together with the error outcome.
* `new Date()` is modelled by a clock `Nat → Int` (epoch milliseconds per
  successive read), so repeated `new Date()` evaluations are successive
  clock reads.
-/

/-- A JavaScript runtime value as reachable by this code base.  `str` carries
the character list of a JS string; `date` carries epoch milliseconds; `other`
carries `String(value)` for values of exotic `typeof` (function, bigint, …). -/
inductive JSValue where
  | null
  | undefined
  | str (s : List Char)
  | num (n : Int)
  | bool (b : Bool)
  | date (t : Int)
  | arr (elems : List JSValue)
  | obj (fields : List (String × JSValue))
  | other (rep : List Char)

/-- A JS object: an ordered association list of fields (insertion order, keys
pairwise distinct in any object produced by the JS runtime). -/
abbrev Rec := List (String × JSValue)

/-- JS whitespace test used by `String.prototype.trim`. -/
def jsWS (c : Char) : Bool := c.isWhitespace

/-- JS `s.trim()`: drop whitespace from the front, then from the back. -/
def jsTrim (s : List Char) : List Char :=
  List.rdropWhile jsWS (List.dropWhile jsWS s)

/-- JS `record.hasOwnProperty(k)` / `record[k]` read on an object: the value
of the first field named `k`, if any. -/
def lookupField (r : Rec) (k : String) : Option JSValue :=
  (r.find? (fun kv => kv.1 = k)).map (·.2)

/-- JS property write `record[k] = v` (also `{...record, k: v}`): replace the
value in place if the key exists, else append the field at the end. -/
def setField (r : Rec) (k : String) (v : JSValue) : Rec :=
  if r.any (fun kv => kv.1 = k) then
    r.map (fun kv => if kv.1 = k then (k, v) else kv)
  else
    r ++ [(k, v)]

/-- JS loose `val != null`: false exactly on `null` and `undefined`. -/
def jsNonNull : JSValue → Bool
  | .null => false
  | .undefined => false
  | _ => true

/-- One field value through `DataProcessor.processGeneric`
(`lib/data-processor.js`): `null`/`undefined` are dropped; strings are
trimmed and dropped when empty after trimming; numbers, booleans, `Date`s,
arrays and nested objects pass through; anything else becomes `String(value)`. -/
def cleanValue : JSValue → Option JSValue
  | .null => none
  | .undefined => none
  | .str s => if (jsTrim s).length > 0 then some (.str (jsTrim s)) else none
  | .num n => some (.num n)
  | .bool b => some (.bool b)
  | .date t => some (.date t)
  | .arr xs => some (.arr xs)
  | .obj fs => some (.obj fs)
  | .other rep => some (.str rep)

/-- `DataProcessor.processGeneric` on the entries of an object: each field is
processed independently by `cleanValue` and kept fields are written into the
fresh result object in iteration order. -/
def processGeneric (item : Rec) : Rec :=
  item.filterMap (fun kv => (cleanValue kv.2).map (fun w => (kv.1, w)))

/-- The resolved configuration record produced by
`SeederConfig.getEntityConfig` (`seeder-config.js`): auto-discovered defaults
merged with the caller's `customConfig`.  The discovery scan itself is not
under test; operations below consume an arbitrary resolved record.
`batchSize` is an `Int` because a custom config may supply any JS number. -/
structure EntityConfig where
  entityType : String
  tableName : String
  dataFile : String
  batchSize : Int
  validFields : List String
  uniqueFields : List String
  requiredFields : List String

/-- Outcome of reading and JSON-parsing the configured data file:
the file is absent, its content is not valid JSON, or it parses to `v`. -/
inductive FileState where
  | absent
  | invalid
  | parsed (v : JSValue)

/-- Classification of the `Error` values thrown by the source, by message
class (see the module docstring for the exact message of each case). -/
inductive SeedError where
  | dataFileNotFound
  | invalidJson
  | invalidDataShape
  | invalidRecord
  | invalidConfig
  | typeError
  | databaseError
deriving Repr, DecidableEq

/-- `SeederFactory._loadDataFile`: read the file and `JSON.parse` it; `ENOENT`
becomes the file-not-found error, a `SyntaxError` becomes the invalid-JSON
error, success returns the parsed value. -/
def loadDataFile : FileState → Except SeedError JSValue
  | .absent => .error .dataFileNotFound
  | .invalid => .error .invalidJson
  | .parsed v => .ok v

/-- The guard and `Object.entries` step at the head of
`DataProcessor.processGeneric`: `!item || typeof item !== "object"` throws
for `null`, `undefined`, strings, numbers, booleans and exotic values;
objects yield their fields, arrays yield index-keyed entries, `Date`s have no
own enumerable properties. -/
def jsEntries : JSValue → Except SeedError Rec
  | .obj fields => .ok fields
  | .arr xs => .ok (xs.enum.map (fun p => (toString p.1, p.2)))
  | .date _ => .ok []
  | _ => .error .invalidRecord

/-- The `filterValidFields` projection loop in `SeederFactory.processData`:
`for (const field of config.validFields) if (processed.hasOwnProperty(field))
filtered[field] = processed[field]`. -/
def projectFields (processed : Rec) (validFields : List String) : Rec :=
  validFields.foldl
    (fun acc f =>
      match lookupField processed f with
      | some v => setField acc f v
      | none => acc)
    []

/-- The per-element body of the `processData` loop.  Note the source guards
the projection with `filterValidFields && config.validFields`; a resolved
`validFields` is always an array and a JS array (even `[]`) is truthy, so the
guard reduces to `filterValidFields` alone. -/
def processItem (cfg : EntityConfig) (filterValidFields : Bool) (item : JSValue) :
    Except SeedError Rec := do
  let entries ← jsEntries item
  let processed := processGeneric entries
  if filterValidFields then
    pure (projectFields processed cfg.validFields)
  else
    pure processed

/-- A call issued against the external `queryInterface`.
`insert table batch` is `bulkInsert(table, batch)`;
`deleteTargeted table conds` is `bulkDelete(table, { [Op.or]:
conds.map((f, vs) => ({ [f]: { [Op.in]: vs } })) })`;
`deleteAll table` is `bulkDelete(table, null, {})`. -/
inductive DBCall where
  | insert (table : String) (batch : List JSValue)
  | deleteTargeted (table : String) (conditions : List (String × List JSValue))
  | deleteAll (table : String)

/-- `SeederFactory.processData`: resolve config (taken as given), load and
parse the data file, require an array, then normalize and optionally project
every element, preserving order.  The first component is the trace of
database calls, which is empty: `processData` never touches
`queryInterface`; it is made explicit so that this property is statable. -/
def processData (cfg : EntityConfig) (filterValidFields : Bool) (fs : FileState) :
    List DBCall × Except SeedError (List Rec) :=
  ([],
    do
      let v ← loadDataFile fs
      match v with
      | .arr items => items.mapM (processItem cfg filterValidFields)
      | _ => .error .invalidDataShape)

/-- Fuel-driven worker for the batching loop
`for (let i = 0; i < data.length; i += batchSize) batches.push(data.slice(i,
i + batchSize))`.  One unit of fuel per loop iteration; the callers always
supply `l.length` fuel, which is enough whenever `B ≥ 1` (each iteration
consumes at least one element).  The fueled form keeps the definition
structurally recursive, hence kernel-evaluable. -/
def chunksAux (B : Nat) : Nat → List α → List (List α)
  | 0, _ => []
  | _, [] => []
  | fuel + 1, a :: t => (a :: t).take B :: chunksAux B fuel ((a :: t).drop B)

/-- The batching loop of `bulkInsertInBatches` / `insertData`: split `l` into
contiguous slices of `B` elements (last slice possibly shorter). -/
def chunks (B : Nat) (l : List α) : List (List α) :=
  chunksAux B l.length l

/-- The sequential insert loop shared by `bulkInsertInBatches` and
`insertData`: issue `bulkInsert(table, batch)` for each batch in order,
awaiting each call; the first rejected call aborts the loop and propagates
(earlier batches are not rolled back). Returns the issued calls and the
error outcome. -/
def runBatches (db : String → List JSValue → Bool) (table : String) :
    List (List JSValue) → List DBCall × Option SeedError
  | [] => ([], none)
  | b :: rest =>
    if db table b then
      let tail := runBatches db table rest
      (.insert table b :: tail.1, tail.2)
    else
      ([.insert table b], some .databaseError)

/-- `SeederFactory.bulkInsertInBatches` (static): return silently when `data`
is not an array or is empty; then reject a non-positive batch size; then
batch and insert sequentially.  (The forwarded per-call options
`{ignoreDuplicates: false, ...options}` carry no information the model
tracks.) -/
def bulkInsertInBatches (db : String → List JSValue → Bool) (table : String)
    (data : JSValue) (batchSize : Int) : List DBCall × Option SeedError :=
  match data with
  | .arr xs =>
    if xs.isEmpty then ([], none)
    else if batchSize ≤ 0 then ([], some .invalidConfig)
    else runBatches db table (chunks batchSize.toNat xs)
  | _ => ([], none)

/-- JS `config.batchSize || 1000` on a numeric batch size: `0` is falsy and
is replaced by the default; every other number is kept. -/
def jsOr1000 (b : Int) : Int :=
  if b = 0 then 1000 else b

/-- The timestamp-stamping step of `SeederFactory.insertData`:
`processedData.map(item => ({...item, createdAt: new Date(), updatedAt: new
Date()}))`.  The callback runs once per record in order and constructs two
fresh `Date`s per record, so record `i` receives clock reads `2*i` and
`2*i + 1`. -/
def stampRecords (clock : Nat → Int) : Nat → List Rec → List Rec
  | _, [] => []
  | i, item :: rest =>
    setField (setField item "createdAt" (.date (clock (2 * i))))
        "updatedAt" (.date (clock (2 * i + 1)))
      :: stampRecords clock (i + 1) rest

/-- Steps 3–4 of `SeederFactory.insertData`: compute the effective batch size
`config.batchSize || 1000`, then run the batching/insert loop.  For a
negative effective batch size and non-empty data the JS `for` loop never
terminates normally (the index only decreases); that case is modelled as
`none`.  With empty data the loop body never runs. -/
def insertDataBatches (db : String → List JSValue → Bool) (table : String)
    (batchSize : Int) (stamped : List JSValue) :
    Option (List DBCall × Option SeedError) :=
  let B := jsOr1000 batchSize
  if 0 < B then some (runBatches db table (chunks B.toNat stamped))
  else if stamped.isEmpty then some ([], none)
  else none

/-- `SeederFactory.insertData` after config resolution: stamp every record
with `createdAt`/`updatedAt` (steps 1–2), then batch and insert against
`config.tableName` (steps 3–4). -/
def insertData (db : String → List JSValue → Bool) (cfg : EntityConfig)
    (clock : Nat → Int) (processedData : List Rec) :
    Option (List DBCall × Option SeedError) :=
  insertDataBatches db cfg.tableName cfg.batchSize
    ((stampRecords clock 0 processedData).map .obj)

/-- A database stub whose `bulkInsert` calls all resolve. -/
def dbAlwaysOk : String → List JSValue → Bool := fun _ _ => true

/-- Decode a property key that is a canonical array index ("0", "1", …);
the round-trip through `toNat?` rejects non-canonical spellings like "01". -/
def jsCanonNat (field : String) : Option Nat :=
  match field.toNat? with
  | some i => if toString i = field then some i else none
  | none => none

/-- JS property read `item[field]` as it behaves on the values reachable
from a parsed JSON data file: reading a property of `null`/`undefined`
throws a `TypeError` (modelled as `SeedError.typeError`); on an object it is
the own field's value or `undefined`; on a string or an array the own
properties are `length` and the canonical numeric indices; numbers,
booleans and `Date`s have no own properties.  Members inherited through the
prototype chain (e.g. `toString`) and own properties of exotic values are
outside the model: the values read here come from `JSON.parse` and the
field names are column names, so no reachable configuration exercises
them. -/
def jsIndex : JSValue → String → Except SeedError JSValue
  | .null, _ => .error .typeError
  | .undefined, _ => .error .typeError
  | .obj r, field => .ok ((lookupField r field).getD .undefined)
  | .str s, field =>
    if field = "length" then .ok (.num (s.length : Int))
    else
      match jsCanonNat field with
      | some i => .ok ((s[i]?.map (fun c => JSValue.str [c])).getD .undefined)
      | none => .ok .undefined
  | .arr xs, field =>
    if field = "length" then .ok (.num (xs.length : Int))
    else
      match jsCanonNat field with
      | some i => .ok (xs[i]?.getD .undefined)
      | none => .ok .undefined
  | .num _, _ => .ok .undefined
  | .bool _, _ => .ok .undefined
  | .date _, _ => .ok .undefined
  | .other _, _ => .ok .undefined

/-- The per-field value collection in `SeederFactory.removeData`:
`data.map(item => item[field]).filter(val => val != null)`; the `map`
re-raises the `TypeError` thrown by reading a property of a `null` or
`undefined` element, aborting the whole collection. -/
def fieldValues (items : List JSValue) (field : String) :
    Except SeedError (List JSValue) :=
  match items.mapM (fun item => jsIndex item field) with
  | .error e => .error e
  | .ok vals => .ok (vals.filter jsNonNull)

/-- The condition-building loop of `SeederFactory.removeData`: one
`{ [field]: { [Op.in]: values } }` clause per unique field that has at
least one non-null value in the file, in field order; the first
property-read failure aborts the loop (to be caught by the caller's inner
catch). -/
def deleteConditions (items : List JSValue) :
    List String → Except SeedError (List (String × List JSValue))
  | [] => .ok []
  | f :: rest =>
    match fieldValues items f with
    | .error e => .error e
    | .ok values =>
      match deleteConditions items rest with
      | .error e => .error e
      | .ok tail =>
        if values.isEmpty then .ok tail else .ok ((f, values) :: tail)

/-- A database stub whose `bulkDelete` calls all resolve. -/
def dbdAlwaysOk : DBCall → Bool := fun _ => true

/-- A database stub that rejects targeted `bulkDelete` calls and resolves
everything else. -/
def dbdRejectTargeted : DBCall → Bool
  | .deleteTargeted _ _ => false
  | _ => true

/-- The fallback step of `removeData`: the unconditional
`bulkDelete(tableName, null, {})` is issued after whatever calls were
already made; its rejection propagates through the outer catch. -/
def removeFallback (dbd : DBCall → Bool) (table : String)
    (calls : List DBCall) : List DBCall × Option SeedError :=
  (calls ++ [.deleteAll table],
    if dbd (.deleteAll table) then none else some .databaseError)

/-- `SeederFactory.removeData` after config resolution, against a database
whose `bulkDelete` outcomes are given by `dbd`.  When `uniqueFields` is
non-empty the inner `try` reloads the data file, builds the per-field
conditions and issues the targeted `bulkDelete`, returning on success; any
failure inside that `try` — a load error, the `TypeError` from a
`null`/`undefined` element, or a rejected targeted delete — is caught and
logged, never fatal.  Every path that does not return then issues the
unconditional `bulkDelete(tableName, null, {})`.  Returns the issued calls
and the error outcome. -/
def removeData (dbd : DBCall → Bool) (cfg : EntityConfig) (fs : FileState) :
    List DBCall × Option SeedError :=
  if cfg.uniqueFields.isEmpty then removeFallback dbd cfg.tableName []
  else
    match loadDataFile fs with
    | .error _ => removeFallback dbd cfg.tableName []
    | .ok v =>
      match v with
      | .arr items =>
        if items.isEmpty then removeFallback dbd cfg.tableName []
        else
          match deleteConditions items cfg.uniqueFields with
          | .error _ => removeFallback dbd cfg.tableName []
          | .ok conds =>
            if conds.isEmpty then removeFallback dbd cfg.tableName []
            else if dbd (.deleteTargeted cfg.tableName conds) then
              ([.deleteTargeted cfg.tableName conds], none)
            else
              removeFallback dbd cfg.tableName
                [.deleteTargeted cfg.tableName conds]
      | _ => removeFallback dbd cfg.tableName []

/-- Dropping leading whitespace twice is the same as dropping it once, and
the result of a full trim has no leading whitespace, so trimming is
idempotent. -/
theorem jsTrim_idem (s : List Char) : jsTrim (jsTrim s) = jsTrim s := by
  unfold jsTrim
  generalize hu : List.dropWhile jsWS s = u
  have h1 : List.dropWhile jsWS (List.rdropWhile jsWS u) = List.rdropWhile jsWS u := by
    cases hru : List.rdropWhile jsWS u with
    | nil => simp
    | cons a t =>
      obtain ⟨r, hr⟩ := List.rdropWhile_prefix jsWS u
      rw [hru] at hr
      have hu2 : u = a :: (t ++ r) := by rw [← hr]; rfl
      have hq : (List.dropWhile jsWS s).head? = some a := by rw [hu, hu2]; rfl
      have h2 := List.head?_dropWhile_not jsWS s
      rw [hq] at h2
      simp only at h2
      simp [h2]
  rw [h1, List.rdropWhile_idempotent]

/-- The fuel argument of `chunksAux` is irrelevant once it covers the list
length (each iteration consumes at least one element when `1 ≤ B`). -/
theorem chunksAux_fuel (B : Nat) (hB : 1 ≤ B) :
    ∀ (f₁ f₂ : Nat) (l : List α), l.length ≤ f₁ → l.length ≤ f₂ →
      chunksAux B f₁ l = chunksAux B f₂ l := by
  intro f₁
  induction f₁ with
  | zero =>
    intro f₂ l h1 _
    have hl : l = [] := List.eq_nil_of_length_eq_zero (Nat.le_zero.mp h1)
    subst hl
    cases f₂ <;> rfl
  | succ f ih =>
    intro f₂ l h1 h2
    cases l with
    | nil => cases f₂ <;> rfl
    | cons a t =>
      cases f₂ with
      | zero => simp at h2
      | succ f₂' =>
        simp only [chunksAux]
        congr 1
        apply ih
        · simp only [List.length_drop, List.length_cons]
          simp only [List.length_cons] at h1
          omega
        · simp only [List.length_drop, List.length_cons]
          simp only [List.length_cons] at h2
          omega

theorem chunks_nil (B : Nat) : chunks B ([] : List α) = [] := rfl

/-- Unfolding equation of the batching loop for a non-empty list. -/
theorem chunks_cons (B : Nat) (hB : 1 ≤ B) (l : List α) (hl : l ≠ []) :
    chunks B l = l.take B :: chunks B (l.drop B) := by
  cases l with
  | nil => exact absurd rfl hl
  | cons a t =>
    show chunksAux B (t.length + 1) (a :: t) = _
    cases B with
    | zero => omega
    | succ B' =>
      simp only [chunksAux]
      congr 1
      apply chunksAux_fuel _ hB
      · simp only [List.length_drop, List.length_cons]; omega
      · exact le_refl _

theorem chunks_eq_nil_iff (B : Nat) (hB : 1 ≤ B) (l : List α) :
    chunks B l = [] ↔ l = [] := by
  constructor
  · intro h
    by_contra hl
    rw [chunks_cons B hB l hl] at h
    exact List.cons_ne_nil _ _ h
  · intro h; subst h; rfl

theorem chunks_flatten_aux (B : Nat) (hB : 1 ≤ B) :
    ∀ (n : Nat) (l : List α), l.length ≤ n → (chunks B l).flatten = l := by
  intro n
  induction n with
  | zero =>
    intro l h
    have hl : l = [] := List.eq_nil_of_length_eq_zero (Nat.le_zero.mp h)
    subst hl; rfl
  | succ n ih =>
    intro l h
    cases l with
    | nil => rfl
    | cons a t =>
      have hdrop : ((a :: t).drop B).length ≤ n := by
        simp only [List.length_drop, List.length_cons]
        simp only [List.length_cons] at h
        omega
      rw [chunks_cons B hB _ (List.cons_ne_nil a t), List.flatten_cons, ih _ hdrop,
        List.take_append_drop]

/-- Concatenating the batches in order reconstructs the input list. -/
theorem chunks_flatten (B : Nat) (hB : 1 ≤ B) (l : List α) :
    (chunks B l).flatten = l :=
  chunks_flatten_aux B hB l.length l (le_refl _)

theorem chunks_length_aux (B : Nat) (hB : 1 ≤ B) :
    ∀ (n : Nat) (l : List α), l.length ≤ n →
      (chunks B l).length = (l.length + (B - 1)) / B := by
  intro n
  induction n with
  | zero =>
    intro l h
    have hl : l = [] := List.eq_nil_of_length_eq_zero (Nat.le_zero.mp h)
    subst hl
    simp [chunks_nil, Nat.div_eq_of_lt (show B - 1 < B by omega)]
  | succ n ih =>
    intro l h
    cases l with
    | nil => simp [chunks_nil, Nat.div_eq_of_lt (show B - 1 < B by omega)]
    | cons a t =>
      have hdrop : ((a :: t).drop B).length ≤ n := by
        simp only [List.length_drop, List.length_cons]
        simp only [List.length_cons] at h
        omega
      rw [chunks_cons B hB _ (List.cons_ne_nil a t), List.length_cons, ih _ hdrop]
      simp only [List.length_drop, List.length_cons]
      rcases le_or_lt (t.length + 1) B with hc | hc
      · have h0 : t.length + 1 - B = 0 := by omega
        have he : t.length + 1 + (B - 1) = t.length + B := by omega
        rw [h0, he, Nat.zero_add, Nat.div_eq_of_lt (show B - 1 < B by omega),
          Nat.add_div_right _ (show 0 < B by omega),
          Nat.div_eq_of_lt (show t.length < B by omega)]
      · have he1 : t.length + 1 - B + (B - 1) = t.length := by omega
        have he2 : t.length + 1 + (B - 1) = t.length + B := by omega
        rw [he1, he2, Nat.add_div_right _ (show 0 < B by omega)]

/-- The number of batches is the ceiling of `length / B`. -/
theorem chunks_length (B : Nat) (hB : 1 ≤ B) (l : List α) :
    (chunks B l).length = (l.length + (B - 1)) / B :=
  chunks_length_aux B hB l.length l (le_refl _)

theorem chunks_front_last_aux (B : Nat) (hB : 1 ≤ B) :
    ∀ (n : Nat) (l : List α), l.length ≤ n → l ≠ [] →
      ∃ front lastB, chunks B l = front ++ [lastB] ∧
        (∀ c ∈ front, c.length = B) ∧
        lastB.length = (if l.length % B = 0 then B else l.length % B) := by
  intro n
  induction n with
  | zero =>
    intro l h hl
    exact absurd (List.eq_nil_of_length_eq_zero (Nat.le_zero.mp h)) hl
  | succ n ih =>
    intro l h hl
    rw [chunks_cons B hB l hl]
    by_cases hrest : l.drop B = []
    · have hlen : l.length ≤ B := List.drop_eq_nil_iff.mp hrest
      have hpos : 0 < l.length := List.length_pos.mpr hl
      refine ⟨[], l.take B, by rw [hrest, chunks_nil]; rfl, by simp, ?_⟩
      have htk : (l.take B).length = l.length := by
        rw [List.length_take]; omega
      by_cases hmod : l.length % B = 0
      · have hlB : l.length = B := by
          rcases Nat.lt_or_ge l.length B with hlt | hge
          · rw [Nat.mod_eq_of_lt hlt] at hmod; omega
          · omega
        simp [hmod, htk, hlB]
      · have hlt : l.length < B := by
          rcases Nat.lt_or_ge l.length B with hlt | hge
          · exact hlt
          · exact absurd (by rw [show l.length = B by omega]; exact Nat.mod_self B) hmod
        rw [if_neg hmod, htk, Nat.mod_eq_of_lt hlt]
    · have hlen : B < l.length := by
        rcases Nat.lt_or_ge B l.length with hlt | hge
        · exact hlt
        · exact absurd (List.drop_eq_nil_of_le hge) hrest
      have hdrop : (l.drop B).length ≤ n := by
        simp only [List.length_drop]; omega
      obtain ⟨front, lastB, hc, hfront, hlast⟩ := ih (l.drop B) hdrop hrest
      refine ⟨l.take B :: front, lastB, by rw [hc]; rfl, ?_, ?_⟩
      · intro c hc'
        rcases List.mem_cons.mp hc' with h1 | h1
        · subst h1; rw [List.length_take]; omega
        · exact hfront c h1
      · rw [hlast, List.length_drop,
          show l.length % B = (l.length - B) % B from Nat.mod_eq_sub_mod (by omega)]

/-- Every batch but the last has exactly `B` elements and the last batch has
`length % B` elements (or `B` when `B` divides the length). -/
theorem chunks_front_last (B : Nat) (hB : 1 ≤ B) (l : List α) (hl : l ≠ []) :
    ∃ front lastB, chunks B l = front ++ [lastB] ∧
      (∀ c ∈ front, c.length = B) ∧
      lastB.length = (if l.length % B = 0 then B else l.length % B) :=
  chunks_front_last_aux B hB l.length l (le_refl _) hl

/-- Against a database whose calls all resolve, the sequential loop issues
one insert per batch, in order, and reports no error. -/
theorem runBatches_dbAlwaysOk (table : String) (bs : List (List JSValue)) :
    runBatches dbAlwaysOk table bs = (bs.map (DBCall.insert table), none) := by
  induction bs with
  | nil => rfl
  | cons b rest ih => simp [runBatches, dbAlwaysOk, ih]

theorem stampRecords_length (clock : Nat → Int) :
    ∀ (i : Nat) (data : List Rec), (stampRecords clock i data).length = data.length := by
  intro i data
  induction data generalizing i with
  | nil => rfl
  | cons item rest ih => simp [stampRecords, ih]

theorem find?_map_replace (r : Rec) (k : String) (v : JSValue)
    (h : r.any (fun kv => kv.1 = k) = true) :
    (r.map (fun kv => if kv.1 = k then (k, v) else kv)).find?
        (fun kv => kv.1 = k) = some (k, v) := by
  induction r with
  | nil => simp at h
  | cons kv r ih =>
    by_cases hk : kv.1 = k
    · simp [hk]
    · rw [List.map_cons, if_neg hk, List.find?_cons_of_neg _ (by simp [hk])]
      apply ih
      simpa [hk] using h

theorem find?_append_single (r : Rec) (k : String) (v : JSValue)
    (h : r.any (fun kv => kv.1 = k) = false) :
    (r ++ [(k, v)]).find? (fun kv => kv.1 = k) = some (k, v) := by
  induction r with
  | nil => simp
  | cons kv r ih =>
    have hk : ¬ (kv.1 = k) := by
      intro he
      simp [he] at h
    rw [List.cons_append, List.find?_cons_of_neg _ (by simp [hk])]
    apply ih
    simpa [hk] using h

/-- Reading a key right after writing it yields the written value. -/
theorem lookupField_setField_self (r : Rec) (k : String) (v : JSValue) :
    lookupField (setField r k v) k = some v := by
  unfold setField lookupField
  cases hb : r.any (fun kv => kv.1 = k) with
  | true => rw [if_pos rfl, find?_map_replace r k v hb]; rfl
  | false => rw [if_neg (by simp), find?_append_single r k v hb]; rfl

/-- Writing one key leaves reads of a different key unchanged. -/
theorem lookupField_setField_ne (r : Rec) (k k' : String) (v : JSValue)
    (hne : k ≠ k') : lookupField (setField r k' v) k = lookupField r k := by
  have hne' : ¬ (k' = k) := Ne.symm hne
  unfold setField lookupField
  by_cases h : r.any (fun kv => kv.1 = k')
  · rw [if_pos h]
    clear h
    induction r with
    | nil => rfl
    | cons kv r ih =>
      by_cases hk : kv.1 = k'
      · have hkk : ¬ (kv.1 = k) := by rw [hk]; exact hne'
        rw [List.map_cons, if_pos hk,
          List.find?_cons_of_neg _ (by simp [hne']),
          List.find?_cons_of_neg _ (by simp [hkk])]
        exact ih
      · by_cases hkk : kv.1 = k
        · rw [List.map_cons, if_neg hk, List.find?_cons_of_pos _ (by simp [hkk]),
            List.find?_cons_of_pos _ (by simp [hkk])]
        · rw [List.map_cons, if_neg hk, List.find?_cons_of_neg _ (by simp [hkk]),
            List.find?_cons_of_neg _ (by simp [hkk])]
          exact ih
  · rw [if_neg h, List.find?_append]
    have hsingle : List.find? (fun kv => decide (kv.1 = k)) [(k', v)] = none := by
      simp [hne']
    rw [hsingle]
    cases List.find? (fun kv => decide (kv.1 = k)) r <;> rfl

/-- Case characterization of `cleanValue`: the kept/transformed outcomes per
original value type. -/
theorem cleanValue_eq_some_iff (v w : JSValue) :
    cleanValue v = some w ↔
      ((∃ s, v = .str s ∧ jsTrim s ≠ [] ∧ w = .str (jsTrim s))
       ∨ (((∃ n, v = .num n) ∨ (∃ b, v = .bool b) ∨ (∃ t, v = .date t)
            ∨ (∃ xs, v = .arr xs) ∨ (∃ fs, v = .obj fs)) ∧ w = v)
       ∨ (∃ rep, v = .other rep ∧ w = .str rep)) := by
  cases v with
  | str s =>
    by_cases h : (jsTrim s).length > 0
    · have hne : jsTrim s ≠ [] := List.length_pos.mp h
      simp [cleanValue, if_pos h, hne, eq_comm]
    · have hnil : jsTrim s = [] := by
        cases he : jsTrim s with
        | nil => rfl
        | cons c cs => rw [he] at h; simp at h
      simp [cleanValue, if_neg h, hnil]
  | null => simp [cleanValue]
  | undefined => simp [cleanValue]
  | num n => simp [cleanValue, eq_comm]
  | bool b => simp [cleanValue, eq_comm]
  | date t => simp [cleanValue, eq_comm]
  | arr xs => simp [cleanValue, eq_comm]
  | obj fs => simp [cleanValue, eq_comm]
  | other rep => simp [cleanValue, eq_comm]

/-- Each stamped record reads back the clock values written for it. -/
theorem stampRecords_lookup (clock : Nat → Int) :
    ∀ (i : Nat) (data : List Rec) (r : Rec), r ∈ stampRecords clock i data →
      ∃ j, lookupField r "createdAt" = some (.date (clock (2 * j))) ∧
           lookupField r "updatedAt" = some (.date (clock (2 * j + 1))) := by
  intro i data
  induction data generalizing i with
  | nil => intro r h; simp [stampRecords] at h
  | cons item rest ih =>
    intro r h
    rcases List.mem_cons.mp h with h1 | h1
    · refine ⟨i, ?_, ?_⟩
      · rw [h1, lookupField_setField_ne _ _ _ _ (by decide),
          lookupField_setField_self]
      · rw [h1, lookupField_setField_self]
    · exact ih (i + 1) r h1

/-- A resolved configuration whose model scan found no fields
(`validFields = []`, the "no filtering" marker per the config resolver). -/
def cfgEmptyValid : EntityConfig :=
  ⟨"Users", "People", "data/users.json", 1000, [], ["userName", "email"], []⟩

/-- The default resolved configuration for the `Users` entity. -/
def cfgUsers : EntityConfig :=
  ⟨"Users", "People", "data/users.json", 1000,
    ["userName", "name", "email"], ["userName", "email"], []⟩

/-- A configuration whose caller-supplied batch size is `0`. -/
def cfgZeroBatch : EntityConfig :=
  ⟨"Users", "People", "data/users.json", 0, [], ["userName"], []⟩

/-- A configuration whose caller-supplied batch size is `2`. -/
def cfgBatch2 : EntityConfig :=
  ⟨"Users", "T", "data/users.json", 2, [], ["userName"], []⟩

/-- C1 (code_bug evidence): with `filterValidFields` enabled and an empty
`validFields` list, `processData` does NOT skip filtering — the guard
`filterValidFields && config.validFields` is true because an empty JS array
is truthy, and the projection loop over zero field names replaces every
normalized record by the empty record, while the `filterValidFields`
disabled run keeps the record's fields. -/
theorem c1_processData_empty_validFields_strips_all_fields :
    (processData cfgEmptyValid true
        (.parsed (.arr [.obj [("name", .str ['x'])]]))).2 = .ok [[]]
    ∧ (processData cfgEmptyValid false
        (.parsed (.arr [.obj [("name", .str ['x'])]]))).2 =
        .ok [[("name", .str ['x'])]] :=
  ⟨rfl, rfl⟩

/-- C6: `processData` fails with the file-not-found error on an absent file,
the invalid-JSON error on unparseable content, and the wrong-shape error on
any parsed value that is not an array; in all three cases the database-call
trace is empty. -/
theorem c6_processData_load_error_taxonomy (cfg : EntityConfig) (fvf : Bool) :
    processData cfg fvf .absent = ([], .error .dataFileNotFound)
    ∧ processData cfg fvf .invalid = ([], .error .invalidJson)
    ∧ ∀ v : JSValue, (∀ xs, v ≠ .arr xs) →
        processData cfg fvf (.parsed v) = ([], .error .invalidDataShape) := by
  refine ⟨rfl, rfl, ?_⟩
  intro v hv
  cases v <;> first | rfl | exact absurd rfl (hv _)

theorem c6_witness :
    processData cfgEmptyValid true (.parsed (.str "not an array".toList)) =
      ([], .error .invalidDataShape) :=
  (c6_processData_load_error_taxonomy cfgEmptyValid true).2.2 _
    (fun _ h => JSValue.noConfusion h)

/-- C10: with empty array data — or a non-array data argument — the static
`bulkInsertInBatches` returns normally, issues no database call, and never
reaches the batch-size validation, whatever the batch size. -/
theorem c10_bulkInsert_empty_input_skips_validation
    (db : String → List JSValue → Bool) (table : String) (B : Int) :
    (∀ v : JSValue, (∀ xs, v ≠ .arr xs) →
        bulkInsertInBatches db table v B = ([], none))
    ∧ bulkInsertInBatches db table (.arr []) B = ([], none) := by
  refine ⟨?_, rfl⟩
  intro v hv
  cases v <;> first | rfl | exact absurd rfl (hv _)

theorem c10_witness :
    bulkInsertInBatches dbAlwaysOk "People" (.num 1) (-3) = ([], none)
    ∧ bulkInsertInBatches dbAlwaysOk "People" (.arr []) (-3) = ([], none) :=
  ⟨(c10_bulkInsert_empty_input_skips_validation dbAlwaysOk "People" (-3)).1 _
      (fun _ h => JSValue.noConfusion h),
    (c10_bulkInsert_empty_input_skips_validation dbAlwaysOk "People" (-3)).2⟩

/-- C2 counterexample: a non-positive batch size is not rejected in either
operation — `bulkInsertInBatches` with empty data returns normally before
the validation, and `insertData` with batch size `0` silently substitutes
the default `1000` and proceeds to issue database I/O. -/
theorem c2_cex_nonpositive_batch_not_rejected :
    bulkInsertInBatches dbAlwaysOk "People" (.arr []) 0 = ([], none)
    ∧ insertData dbAlwaysOk cfgZeroBatch (fun _ => 0) [[("name", .str ['x'])]] =
        some ([.insert "People"
          [.obj [("name", .str ['x']), ("createdAt", .date 0),
            ("updatedAt", .date 0)]]], none) :=
  ⟨rfl, rfl⟩

/-- C2 (corrected): `bulkInsertInBatches` raises the batch-size error before
any database call exactly when the data is a non-empty array and the batch
size is non-positive; `insertData` never validates the batch size at all — a
batch size of `0` is JS-falsy and is silently replaced by the default
`1000`. -/
theorem c2_amended_batch_size_validation (B : Int) (hB : B ≤ 0)
    (db : String → List JSValue → Bool) (table : String) :
    (∀ xs : List JSValue, xs ≠ [] →
        bulkInsertInBatches db table (.arr xs) B = ([], some .invalidConfig))
    ∧ (∀ v : JSValue,
        bulkInsertInBatches db table v B = ([], some .invalidConfig) →
        ∃ xs, v = .arr xs ∧ xs ≠ [])
    ∧ (∀ xs : List JSValue,
        insertDataBatches db table 0 xs = insertDataBatches db table 1000 xs) := by
  refine ⟨?_, ?_, ?_⟩
  · intro xs hxs
    simp only [bulkInsertInBatches]
    rw [if_neg (by simpa using hxs), if_pos hB]
  · intro v hv
    cases v with
    | arr xs =>
      refine ⟨xs, rfl, ?_⟩
      intro h
      rw [h] at hv
      simp [bulkInsertInBatches] at hv
    | null => simp [bulkInsertInBatches] at hv
    | undefined => simp [bulkInsertInBatches] at hv
    | str s => simp [bulkInsertInBatches] at hv
    | num n => simp [bulkInsertInBatches] at hv
    | bool b => simp [bulkInsertInBatches] at hv
    | date t => simp [bulkInsertInBatches] at hv
    | obj fs => simp [bulkInsertInBatches] at hv
    | other rep => simp [bulkInsertInBatches] at hv
  · intro xs
    simp [insertDataBatches, jsOr1000]

theorem c2_witness :
    bulkInsertInBatches dbAlwaysOk "People" (.arr [.obj []]) (-1) =
      ([], some .invalidConfig) :=
  (c2_amended_batch_size_validation (-1) (by norm_num) dbAlwaysOk "People").1
    [.obj []] (by simp)

/-- C3 counterexample: at batch size `0` with one record, the standalone
helper rejects with the batch-size error and issues nothing, while steps 3–4
of `insertData` substitute the default batch size and issue one insert — the
two paths diverge on both the call sequence and the failure condition. -/
theorem c3_cex_divergence_at_zero_batch :
    bulkInsertInBatches dbAlwaysOk "People" (.arr [.obj []]) 0 =
      ([], some .invalidConfig)
    ∧ insertDataBatches dbAlwaysOk "People" 0 [.obj []] =
        some ([.insert "People" [.obj []]], none)
    ∧ (some SeedError.invalidConfig : Option SeedError) ≠ none :=
  ⟨rfl, rfl, by simp⟩

/-- C3 (corrected): for every positive batch size the standalone helper and
steps 3–4 of `insertData` are equivalent — same batches, same call order,
and the same error outcome (including stopping at the first rejected
insert); the equivalence fails only for non-positive batch sizes. -/
theorem c3_amended_equiv_for_positive_batch (db : String → List JSValue → Bool)
    (table : String) (B : Nat) (hB : 1 ≤ B) (xs : List JSValue) :
    insertDataBatches db table (B : Int) xs =
      some (bulkInsertInBatches db table (.arr xs) (B : Int)) := by
  have hBpos : (0 : Int) < (B : Int) := by exact_mod_cast hB
  have hOr : jsOr1000 (B : Int) = (B : Int) := by
    unfold jsOr1000
    rw [if_neg (ne_of_gt hBpos)]
  simp only [insertDataBatches, bulkInsertInBatches, hOr]
  rw [if_pos hBpos]
  by_cases hxs : xs.isEmpty
  · have hx : xs = [] := by simpa using hxs
    subst hx
    simp [chunks_nil, runBatches]
  · rw [if_neg hxs, if_neg (not_le.mpr hBpos)]

theorem c3_witness :
    insertDataBatches dbAlwaysOk "T" ((2 : Nat) : Int) [.num 1, .num 2, .num 3] =
      some (bulkInsertInBatches dbAlwaysOk "T"
        (.arr [.num 1, .num 2, .num 3]) ((2 : Nat) : Int))
    ∧ bulkInsertInBatches dbAlwaysOk "T"
        (.arr [.num 1, .num 2, .num 3]) ((2 : Nat) : Int) =
        ([.insert "T" [.num 1, .num 2], .insert "T" [.num 3]], none) :=
  ⟨c3_amended_equiv_for_positive_batch dbAlwaysOk "T" 2 (by norm_num) _, rfl⟩

/-- C7: for batch size `B ≥ 1`, both insert operations issue exactly the
batches computed by the chunking loop, each batch via one sequential insert
call; the number of batches is `ceil(N/B)`, every batch except possibly the
last has exactly `B` records, the last has `N mod B` records when that is
non-zero (`B` otherwise), and concatenating the batches in issue order
reconstructs the (for `insertData`: timestamped) dataset. -/
theorem c7_batching_partition (B : Nat) (hB : 1 ≤ B) (table : String)
    (xs : List JSValue) (cfg : EntityConfig) (clock : Nat → Int)
    (data : List Rec) (hsize : cfg.batchSize = (B : Int)) :
    bulkInsertInBatches dbAlwaysOk table (.arr xs) (B : Int) =
      ((chunks B xs).map (DBCall.insert table), none)
    ∧ insertData dbAlwaysOk cfg clock data =
        some ((chunks B ((stampRecords clock 0 data).map .obj)).map
          (DBCall.insert cfg.tableName), none)
    ∧ ((stampRecords clock 0 data).map JSValue.obj).length = data.length
    ∧ (chunks B xs).length = (xs.length + (B - 1)) / B
    ∧ (chunks B xs).flatten = xs
    ∧ (xs ≠ [] → ∃ front lastB, chunks B xs = front ++ [lastB] ∧
        (∀ c ∈ front, c.length = B) ∧
        lastB.length = (if xs.length % B = 0 then B else xs.length % B)) := by
  have hBpos : (0 : Int) < (B : Int) := by exact_mod_cast hB
  refine ⟨?_, ?_, ?_, chunks_length B hB xs, chunks_flatten B hB xs,
    chunks_front_last B hB xs⟩
  · simp only [bulkInsertInBatches]
    by_cases hxs : xs.isEmpty
    · have hx : xs = [] := by simpa using hxs
      subst hx
      simp [chunks_nil]
    · rw [if_neg hxs, if_neg (not_le.mpr hBpos), Int.toNat_ofNat,
        runBatches_dbAlwaysOk]
  · have hOr : jsOr1000 (B : Int) = (B : Int) := by
      unfold jsOr1000
      rw [if_neg (ne_of_gt hBpos)]
    simp only [insertData, insertDataBatches, hsize, hOr]
    rw [if_pos hBpos, Int.toNat_ofNat, runBatches_dbAlwaysOk]
  · rw [List.length_map, stampRecords_length]

theorem c7_witness :
    bulkInsertInBatches dbAlwaysOk "T"
        (.arr [.num 1, .num 2, .num 3, .num 4, .num 5]) ((2 : Nat) : Int) =
      ([.insert "T" [.num 1, .num 2], .insert "T" [.num 3, .num 4],
        .insert "T" [.num 5]], none)
    ∧ (chunks 2 [JSValue.num 1, .num 2, .num 3, .num 4, .num 5]).length = 3
    ∧ (chunks 2 [JSValue.num 1, .num 2, .num 3, .num 4, .num 5]).flatten =
        [JSValue.num 1, .num 2, .num 3, .num 4, .num 5] := by
  have h := c7_batching_partition 2 (by norm_num) "T"
    [.num 1, .num 2, .num 3, .num 4, .num 5] cfgBatch2 (fun _ => 0) [] rfl
  refine ⟨?_, ?_, h.2.2.2.2.1⟩
  · rw [h.1]; rfl
  · rw [h.2.2.2.1]; rfl

/-- C4 counterexample: under a clock that advances between reads — the code
constructs a fresh `Date` per field per record — `insertData` stamps the
first record with `createdAt = 0, updatedAt = 1` and the second with
`createdAt = 2, updatedAt = 3`: the records of one call do not share a
single instant, and `createdAt` even differs from `updatedAt` within one
record. -/
theorem c4_cex_fresh_date_per_record :
    insertData dbAlwaysOk cfgUsers (fun n => (n : Int)) [[], []] =
      some ([.insert "People"
        [.obj [("createdAt", .date 0), ("updatedAt", .date 1)],
         .obj [("createdAt", .date 2), ("updatedAt", .date 3)]]], none)
    ∧ JSValue.date 0 ≠ JSValue.date 2 :=
  ⟨rfl, by simp⟩

/-- C4 (corrected): `insertData` stamps each record with `createdAt` and
`updatedAt` taken from two fresh clock reads per record; whenever the clock
does not advance during the call, every stamped record carries the same
instant in both fields. -/
theorem c4_amended_same_instant_under_constant_clock (clock : Nat → Int)
    (t : Int) (hc : ∀ n, clock n = t) (data : List Rec) :
    ∀ r ∈ stampRecords clock 0 data,
      lookupField r "createdAt" = some (.date t) ∧
      lookupField r "updatedAt" = some (.date t) := by
  intro r hr
  obtain ⟨j, h1, h2⟩ := stampRecords_lookup clock 0 data r hr
  refine ⟨?_, ?_⟩
  · rw [h1, hc]
  · rw [h2, hc]

theorem c4_witness :
    lookupField [("a", JSValue.num 1), ("createdAt", JSValue.date 5),
        ("updatedAt", JSValue.date 5)] "createdAt" = some (.date 5)
    ∧ lookupField [("a", JSValue.num 1), ("createdAt", JSValue.date 5),
        ("updatedAt", JSValue.date 5)] "updatedAt" = some (.date 5) :=
  c4_amended_same_instant_under_constant_clock (fun _ => (5 : Int)) 5
    (fun _ => rfl) [[("a", .num 1)]] _ (List.mem_singleton_self _)

/-- Reading any property of a non-`null`, non-`undefined` value does not
throw. -/
theorem jsIndex_ok_of_not_nullish (item : JSValue) (field : String)
    (h1 : item ≠ .null) (h2 : item ≠ .undefined) :
    ∃ w, jsIndex item field = .ok w := by
  cases item with
  | null => exact absurd rfl h1
  | undefined => exact absurd rfl h2
  | obj r => exact ⟨_, rfl⟩
  | str s =>
    by_cases hf : field = "length"
    · exact ⟨.num (s.length : Int), by simp [jsIndex, hf]⟩
    · cases hc : jsCanonNat field with
      | some i =>
        exact ⟨(s[i]?.map (fun c => JSValue.str [c])).getD .undefined,
          by simp [jsIndex, hf, hc]⟩
      | none => exact ⟨.undefined, by simp [jsIndex, hf, hc]⟩
  | arr xs =>
    by_cases hf : field = "length"
    · exact ⟨.num (xs.length : Int), by simp [jsIndex, hf]⟩
    · cases hc : jsCanonNat field with
      | some i => exact ⟨xs[i]?.getD .undefined, by simp [jsIndex, hf, hc]⟩
      | none => exact ⟨.undefined, by simp [jsIndex, hf, hc]⟩
  | num n => exact ⟨_, rfl⟩
  | bool b => exact ⟨_, rfl⟩
  | date t => exact ⟨_, rfl⟩
  | other rep => exact ⟨_, rfl⟩

/-- A `null` element makes the property-read map of `removeData` throw. -/
theorem mapM_jsIndex_error_of_mem_null (field : String) :
    ∀ (items : List JSValue), JSValue.null ∈ items →
      ∃ e, items.mapM (fun item => jsIndex item field) = .error e := by
  intro items hmem
  induction items with
  | nil => simp at hmem
  | cons a t ih =>
    rcases List.mem_cons.mp hmem with h1 | h1
    · subst h1
      exact ⟨.typeError, by simp only [List.mapM_cons]; rfl⟩
    · cases hj : jsIndex a field with
      | error e => exact ⟨e, by simp only [List.mapM_cons, hj]; rfl⟩
      | ok w =>
        obtain ⟨e, he⟩ := ih h1
        exact ⟨e, by simp only [List.mapM_cons, hj, he]; rfl⟩

theorem fieldValues_error_of_mem_null (items : List JSValue) (field : String)
    (h : JSValue.null ∈ items) : ∃ e, fieldValues items field = .error e := by
  obtain ⟨e, he⟩ := mapM_jsIndex_error_of_mem_null field items h
  exact ⟨e, by unfold fieldValues; rw [he]⟩

theorem deleteConditions_error_of_mem_null (items : List JSValue)
    (h : JSValue.null ∈ items) (g : String) (rest : List String) :
    ∃ e, deleteConditions items (g :: rest) = .error e := by
  obtain ⟨e, he⟩ := fieldValues_error_of_mem_null items g h
  exact ⟨e, by simp [deleteConditions, he]⟩

/-- Membership characterization of the condition list built by
`removeData`: one clause per unique field whose collected non-null values
are non-empty. -/
theorem deleteConditions_mem (items : List JSValue) :
    ∀ (ufs : List String) (conds : List (String × List JSValue)),
      deleteConditions items ufs = .ok conds →
      ∀ (f : String) (vs : List JSValue),
        ((f, vs) ∈ conds ↔
          f ∈ ufs ∧ fieldValues items f = .ok vs ∧ vs ≠ []) := by
  intro ufs
  induction ufs with
  | nil =>
    intro conds h f vs
    injection h with h2
    subst h2
    simp
  | cons g rest ih =>
    intro conds h f vs
    simp only [deleteConditions] at h
    split at h
    · exact absurd h (by simp)
    · rename_i values hv
      split at h
      · exact absurd h (by simp)
      · rename_i tail ht
        have hiff := ih tail ht f vs
        split at h
        · rename_i hemp
          injection h with h2
          subst h2
          have hval : values = [] := by simpa using hemp
          rw [hiff]
          constructor
          · rintro ⟨hmem, hfv, hne⟩
            exact ⟨List.mem_cons_of_mem _ hmem, hfv, hne⟩
          · rintro ⟨hmem, hfv, hne⟩
            rcases List.mem_cons.mp hmem with h1 | h1
            · subst h1
              rw [hv] at hfv
              injection hfv with h3
              rw [← h3] at hne
              exact absurd hval hne
            · exact ⟨h1, hfv, hne⟩
        · rename_i hemp
          injection h with h2
          subst h2
          constructor
          · intro hm
            rcases List.mem_cons.mp hm with h1 | h1
            · have hf : f = g := congrArg Prod.fst h1
              have hvs : vs = values := congrArg Prod.snd h1
              subst hf
              subst hvs
              refine ⟨List.mem_cons_self _ _, hv, ?_⟩
              simpa using hemp
            · have hrest := hiff.mp h1
              exact ⟨List.mem_cons_of_mem _ hrest.1, hrest.2.1, hrest.2.2⟩
          · rintro ⟨hmem, hfv, hne⟩
            rcases List.mem_cons.mp hmem with h1 | h1
            · subst h1
              rw [hv] at hfv
              injection hfv with h3
              subst h3
              exact List.mem_cons_self _ _
            · exact List.mem_cons_of_mem _ (hiff.mpr ⟨h1, hfv, hne⟩)

/-- Values collected for a delete condition are all non-null. -/
theorem fieldValues_nonNull (items : List JSValue) (field : String)
    (vs : List JSValue) (h : fieldValues items field = .ok vs) :
    ∀ v ∈ vs, jsNonNull v = true := by
  intro v hv
  unfold fieldValues at h
  cases hm : items.mapM (fun item => jsIndex item field) with
  | error e => rw [hm] at h; exact absurd h (by simp)
  | ok vals =>
    rw [hm] at h
    injection h with h2
    subst h2
    exact (List.mem_filter.mp hv).2

/-- Demonstration data file content for the rollback scenario: one record
with both unique fields present. -/
def demoItems : List JSValue :=
  [.obj [("userName", .str ['a']), ("email", .str ['a', '@', 'x'])]]

/-- C5 counterexample: on the data file `[null, {"userName": "a"}]` — a
non-empty array containing a non-null value of the unique field `userName`
— the property read `null["userName"]` throws a `TypeError`; the inner
catch swallows it and `removeData` issues the unconditional delete, not the
targeted delete the claim requires.  And when the targeted delete itself is
rejected, the rejection is also swallowed and the unconditional delete runs
too, so two calls are issued rather than exactly one. -/
theorem c5_cex_null_item_and_swallowed_rejection :
    removeData dbdAlwaysOk cfgUsers
        (.parsed (.arr [.null, .obj [("userName", .str ['a'])]])) =
      ([.deleteAll "People"], none)
    ∧ removeData dbdRejectTargeted cfgUsers (.parsed (.arr demoItems)) =
        ([.deleteTargeted "People"
            [("userName", [.str ['a']]), ("email", [.str ['a', '@', 'x']])],
          .deleteAll "People"], none)
    ∧ DBCall.deleteAll "People" ≠
        DBCall.deleteTargeted "People" [("userName", [JSValue.str ['a']])] :=
  ⟨rfl, rfl, by simp⟩

/-- C5 (corrected): with non-empty `uniqueFields`, a data file reloading as
a non-empty array, and a condition build that succeeds (no
`null`/`undefined` element) with at least one usable value, `removeData`
issues one targeted bulk-delete whose predicate is the OR, over exactly the
unique fields with usable (non-null) values, of "field IN its values"; if
that call succeeds it is the only call, and if it is rejected the rejection
is swallowed and the unconditional bulk-delete is issued as well.  On every
other path — load failure (caught, never fatal), non-array content, empty
array, a `null` element (whose property read throws inside the inner try),
no usable values, or empty `uniqueFields` — exactly one unconditional
bulk-delete of the whole table runs. -/
theorem c5_amended_removeData_targeting (dbd : DBCall → Bool)
    (cfg : EntityConfig) :
    (∀ (items : List JSValue) (conds : List (String × List JSValue)),
        items ≠ [] →
        deleteConditions items cfg.uniqueFields = .ok conds → conds ≠ [] →
        dbd (.deleteTargeted cfg.tableName conds) = true →
        removeData dbd cfg (.parsed (.arr items)) =
          ([.deleteTargeted cfg.tableName conds], none))
    ∧ (∀ (items : List JSValue) (conds : List (String × List JSValue)),
        items ≠ [] →
        deleteConditions items cfg.uniqueFields = .ok conds → conds ≠ [] →
        dbd (.deleteTargeted cfg.tableName conds) = false →
        removeData dbd cfg (.parsed (.arr items)) =
          ([.deleteTargeted cfg.tableName conds, .deleteAll cfg.tableName],
            if dbd (.deleteAll cfg.tableName) then none
            else some .databaseError))
    ∧ (∀ (items : List JSValue) (conds : List (String × List JSValue)),
        deleteConditions items cfg.uniqueFields = .ok conds →
        ∀ (f : String) (vs : List JSValue),
          ((f, vs) ∈ conds ↔
            f ∈ cfg.uniqueFields ∧ fieldValues items f = .ok vs ∧ vs ≠ []))
    ∧ (∀ (items : List JSValue) (field : String) (vs : List JSValue),
        fieldValues items field = .ok vs → ∀ v ∈ vs, jsNonNull v = true)
    ∧ removeData dbd cfg .absent =
        ([.deleteAll cfg.tableName],
          if dbd (.deleteAll cfg.tableName) then none else some .databaseError)
    ∧ removeData dbd cfg .invalid =
        ([.deleteAll cfg.tableName],
          if dbd (.deleteAll cfg.tableName) then none else some .databaseError)
    ∧ (∀ v : JSValue, (∀ xs, v ≠ .arr xs) →
        removeData dbd cfg (.parsed v) =
          ([.deleteAll cfg.tableName],
            if dbd (.deleteAll cfg.tableName) then none
            else some .databaseError))
    ∧ (∀ (items : List JSValue) (e : SeedError),
        deleteConditions items cfg.uniqueFields = .error e →
        removeData dbd cfg (.parsed (.arr items)) =
          ([.deleteAll cfg.tableName],
            if dbd (.deleteAll cfg.tableName) then none
            else some .databaseError))
    ∧ (∀ items : List JSValue, cfg.uniqueFields ≠ [] → JSValue.null ∈ items →
        removeData dbd cfg (.parsed (.arr items)) =
          ([.deleteAll cfg.tableName],
            if dbd (.deleteAll cfg.tableName) then none
            else some .databaseError))
    ∧ removeData dbd cfg (.parsed (.arr [])) =
        ([.deleteAll cfg.tableName],
          if dbd (.deleteAll cfg.tableName) then none else some .databaseError)
    ∧ (∀ (items : List JSValue) (conds : List (String × List JSValue)),
        deleteConditions items cfg.uniqueFields = .ok conds → conds = [] →
        removeData dbd cfg (.parsed (.arr items)) =
          ([.deleteAll cfg.tableName],
            if dbd (.deleteAll cfg.tableName) then none
            else some .databaseError))
    ∧ (cfg.uniqueFields = [] → ∀ fs : FileState,
        removeData dbd cfg fs =
          ([.deleteAll cfg.tableName],
            if dbd (.deleteAll cfg.tableName) then none
            else some .databaseError)) := by
  refine ⟨?_, ?_, ?_, ?_, ?_, ?_, ?_, ?_, ?_, ?_, ?_, ?_⟩
  · intro items conds hitems hcond hcne hdbd
    have hu : ¬ cfg.uniqueFields.isEmpty := by
      intro h0
      have h0' : cfg.uniqueFields = [] := by simpa using h0
      rw [h0'] at hcond
      injection hcond with h2
      exact hcne h2.symm
    simp [removeData, loadDataFile, hu, hitems, hcond, hcne, hdbd]
  · intro items conds hitems hcond hcne hdbd
    have hu : ¬ cfg.uniqueFields.isEmpty := by
      intro h0
      have h0' : cfg.uniqueFields = [] := by simpa using h0
      rw [h0'] at hcond
      injection hcond with h2
      exact hcne h2.symm
    simp [removeData, removeFallback, loadDataFile, hu, hitems, hcond, hcne,
      hdbd]
  · intro items conds h f vs
    exact deleteConditions_mem items cfg.uniqueFields conds h f vs
  · intro items field vs h
    exact fieldValues_nonNull items field vs h
  · by_cases hu : cfg.uniqueFields.isEmpty <;>
      simp [removeData, removeFallback, loadDataFile, hu]
  · by_cases hu : cfg.uniqueFields.isEmpty <;>
      simp [removeData, removeFallback, loadDataFile, hu]
  · intro v hv
    by_cases hu : cfg.uniqueFields.isEmpty
    · simp [removeData, removeFallback, loadDataFile, hu]
    · cases v with
      | arr xs => exact absurd rfl (hv xs)
      | null => simp [removeData, removeFallback, loadDataFile, hu]
      | undefined => simp [removeData, removeFallback, loadDataFile, hu]
      | str s => simp [removeData, removeFallback, loadDataFile, hu]
      | num n => simp [removeData, removeFallback, loadDataFile, hu]
      | bool b => simp [removeData, removeFallback, loadDataFile, hu]
      | date t => simp [removeData, removeFallback, loadDataFile, hu]
      | obj fs => simp [removeData, removeFallback, loadDataFile, hu]
      | other rep => simp [removeData, removeFallback, loadDataFile, hu]
  · intro items e he
    by_cases hu : cfg.uniqueFields.isEmpty
    · simp [removeData, removeFallback, loadDataFile, hu]
    · by_cases hit : items.isEmpty
      · simp [removeData, removeFallback, loadDataFile, hu, hit]
      · simp [removeData, removeFallback, loadDataFile, hu, hit, he]
  · intro items hufs hnull
    rcases hl : cfg.uniqueFields with _ | ⟨g, rest⟩
    · exact absurd hl hufs
    · obtain ⟨e, he⟩ := deleteConditions_error_of_mem_null items hnull g rest
      have hit : ¬ items.isEmpty := by
        intro h0
        have : items = [] := by simpa using h0
        rw [this] at hnull
        simp at hnull
      simp [removeData, removeFallback, loadDataFile, hl, hit, he]
  · by_cases hu : cfg.uniqueFields.isEmpty <;>
      simp [removeData, removeFallback, loadDataFile, hu]
  · intro items conds hcond hc
    subst hc
    by_cases hu : cfg.uniqueFields.isEmpty
    · simp [removeData, removeFallback, loadDataFile, hu]
    · by_cases hit : items.isEmpty
      · simp [removeData, removeFallback, loadDataFile, hu, hit]
      · simp [removeData, removeFallback, loadDataFile, hu, hit, hcond]
  · intro h fs
    simp [removeData, removeFallback, h]

theorem c5_witness :
    removeData dbdAlwaysOk cfgUsers (.parsed (.arr demoItems)) =
      ([.deleteTargeted "People"
          [("userName", [.str ['a']]), ("email", [.str ['a', '@', 'x']])]],
        none)
    ∧ removeData dbdAlwaysOk cfgUsers .absent = ([.deleteAll "People"], none) := by
  have h := c5_amended_removeData_targeting dbdAlwaysOk cfgUsers
  constructor
  · exact h.1 demoItems
      [("userName", [JSValue.str ['a']]), ("email", [JSValue.str ['a', '@', 'x']])]
      (List.cons_ne_nil _ _) rfl (List.cons_ne_nil _ _) rfl
  · exact h.2.2.2.2.1

/-- C8: the Normalizer's output contains the pair `(k, w)` exactly when the
input had a field `(k, v)` that survives — a string non-empty after
trimming, kept trimmed; a number, boolean, date, array, or nested object,
kept unchanged; or an exotic value, kept as its string representation — so
no output field originates from a `null`/`undefined` value or from a string
that is empty after trimming. -/
theorem c8_processGeneric_field_characterization (r : Rec) (k : String)
    (w : JSValue) :
    (k, w) ∈ processGeneric r ↔
      ∃ v, (k, v) ∈ r ∧
        ((∃ s, v = .str s ∧ jsTrim s ≠ [] ∧ w = .str (jsTrim s))
         ∨ (((∃ n, v = .num n) ∨ (∃ b, v = .bool b) ∨ (∃ t, v = .date t)
              ∨ (∃ xs, v = .arr xs) ∨ (∃ fs, v = .obj fs)) ∧ w = v)
         ∨ (∃ rep, v = .other rep ∧ w = .str rep)) := by
  unfold processGeneric
  rw [List.mem_filterMap]
  constructor
  · rintro ⟨⟨k', v⟩, hm, he⟩
    rw [Option.map_eq_some'] at he
    obtain ⟨w', hcv, heq⟩ := he
    have hk : k' = k := congrArg Prod.fst heq
    have hw : w' = w := congrArg Prod.snd heq
    subst hk
    subst hw
    exact ⟨v, hm, (cleanValue_eq_some_iff v _).mp hcv⟩
  · rintro ⟨v, hm, hd⟩
    refine ⟨(k, v), hm, ?_⟩
    rw [Option.map_eq_some']
    exact ⟨w, (cleanValue_eq_some_iff v w).mpr hd, rfl⟩

theorem c8_witness :
    ("a", JSValue.num 3) ∈ processGeneric [("b", JSValue.null), ("a", JSValue.num 3)]
    ∧ processGeneric [("b", JSValue.null), ("a", JSValue.num 3)] = [("a", JSValue.num 3)] :=
  ⟨(c8_processGeneric_field_characterization
      [("b", JSValue.null), ("a", JSValue.num 3)] "a" (.num 3)).mpr
      ⟨.num 3, by simp, Or.inr (Or.inl ⟨Or.inl ⟨3, rfl⟩, rfl⟩)⟩,
    rfl⟩

/-- C9 counterexample: normalization is not idempotent in general — a field
whose value has exotic type is stored as its raw string representation
without the trim/empty check, and a second normalization then alters it
(here: a value whose `String(value)` form is the empty string survives the
first pass and is dropped by the second). -/
theorem c9_cex_not_idempotent_on_exotic_values :
    processGeneric [("a", JSValue.other [])] = [("a", JSValue.str [])]
    ∧ processGeneric (processGeneric [("a", JSValue.other [])]) = []
    ∧ ([] : Rec) ≠ [("a", JSValue.str [])] :=
  ⟨rfl, rfl, by simp⟩

/-- C9 (corrected): normalization is idempotent on every record none of
whose field values is exotic with a blank or untrimmed string
representation — in particular on every record of JSON-representable and
date values, the only inputs the seeding pipeline produces. -/
theorem c9_amended_idempotent (r : Rec)
    (h : ∀ kv ∈ r, ∀ rep, kv.2 = JSValue.other rep →
      jsTrim rep = rep ∧ rep ≠ []) :
    processGeneric (processGeneric r) = processGeneric r := by
  unfold processGeneric
  rw [List.filterMap_filterMap]
  apply List.filterMap_congr
  intro kv hm
  obtain ⟨k, v⟩ := kv
  cases v with
  | null => rfl
  | undefined => rfl
  | num n => rfl
  | bool b => rfl
  | date t => rfl
  | arr xs => rfl
  | obj fs => rfl
  | str s =>
    by_cases hs : (jsTrim s).length > 0
    · have hs2 : (jsTrim (jsTrim s)).length > 0 := by rw [jsTrim_idem]; exact hs
      simp [cleanValue, hs, hs2, jsTrim_idem]
    · simp [cleanValue, hs]
  | other rep =>
    obtain ⟨ht, hne⟩ := h (k, .other rep) hm rep rfl
    have hlen : (jsTrim rep).length > 0 := by
      rw [ht]
      exact List.length_pos.mpr hne
    simp [cleanValue, hlen, ht]
    exact hne

theorem c9_witness :
    processGeneric (processGeneric [("a", JSValue.str [' ', 'x']), ("b", JSValue.null)]) =
      processGeneric [("a", JSValue.str [' ', 'x']), ("b", JSValue.null)] :=
  c9_amended_idempotent _ (by
    rintro kv hkv rep hrep
    rcases List.mem_cons.mp hkv with h1 | h1
    · rw [h1] at hrep
      exact absurd hrep (by simp)
    · rcases List.mem_cons.mp h1 with h2 | h2
      · rw [h2] at hrep
        exact absurd hrep (by simp)
      · simp at h2)
